import Mathlib

/-!
Verification of the in-memory todo task repository (`src/todo_app.py`).

The program keeps a global dictionary `task_store` mapping task ids to task
records `{"id", "title", "description", "status"}` and a counter
`next_task_id`.  We embed the repository core shallowly:

* Python `str` is modelled as `List Char` (`Str` below); `str.strip()` is
  `strip`, slicing `s[:n]` is `List.take n`, `len` is `List.length`.
* the dictionary is an association list `List (Nat × Task)`; `task_id in
  task_store` / `task_store[task_id]` is `List.lookup`, `del task_store[id]`
  is a filter on the key, and in-place mutation of a record is a `List.map`
  that rewrites the entries holding that key.
* each interactive operation is embedded as a function on the repository
  state taking the user-supplied inputs as arguments and returning the new
  state together with a typed outcome; the console re-prompt loops of the
  shell become a single attempt whose failure is the typed error the shell
  would have rendered (`InvalidTitle`, `NotFound`), and the printed warnings
  are returned in a list.
-/

namespace TodoApp

/-- Python strings, modelled as lists of characters. -/
abbrev Str := List Char

/-- Python `str.strip()`: remove leading and trailing whitespace. -/
def strip (s : Str) : Str :=
  ((s.dropWhile Char.isWhitespace).reverse.dropWhile Char.isWhitespace).reverse

/-- A task record, the value stored in `task_store`
(`{"id": int, "title": str, "description": str, "status": str}`). -/
structure Task where
  id : Nat
  title : Str
  description : Str
  status : String
deriving Repr, DecidableEq

/-- The repository state: the global `task_store` dictionary and the
`next_task_id` counter of `todo_app.py`. -/
structure Repo where
  tasks : List (Nat × Task)
  next_task_id : Nat
deriving Repr, DecidableEq

/-- Initial state: `task_store = {}`, `next_task_id = 1`. -/
def initRepo : Repo := { tasks := [], next_task_id := 1 }

deriving instance DecidableEq for Except

/-- The typed failures of the repository operations. -/
inductive Err where
  | InvalidTitle
  | NotFound
deriving Repr, DecidableEq

/-- `validate_title`: strip, reject empty, truncate to 100 characters with a
warning.  Returns `(validated_title, warning_message or none)`; a `none`
first component signals the empty-title error. -/
def validate_title (title : Str) : Option Str × Option String :=
  let title := strip title
  if title = [] then
    (none, some "Title cannot be empty")
  else if title.length > 100 then
    (some (title.take 100), some "Title truncated to 100 characters")
  else
    (some title, none)

/-- `validate_description`: no emptiness check, truncate to 500 characters
with a warning.  Returns `(validated_description, warning_message or none)`. -/
def validate_description (description : Str) : Str × Option String :=
  if description.length > 500 then
    (description.take 500, some "Description truncated to 500 characters")
  else
    (description, none)

/-- `find_task`: `task_store[task_id]` if `task_id in task_store`, else
`None`.  It only reads the store, so the state is returned unchanged. -/
def find_task (r : Repo) (task_id : Nat) : Repo × Option Task :=
  (r, r.tasks.lookup task_id)

/-- `add_task`: validate the title (an input whose stripped form is empty is
the `InvalidTitle` failure the shell re-prompts on), validate the
description, then store `{"id": next_task_id, ..., "status": "Pending"}`
under key `next_task_id` and increment the counter.  The returned list
collects the printed `Warning:` messages. -/
def add_task (r : Repo) (title_input description_input : Str) :
    Repo × Except Err (Task × List String) :=
  match validate_title title_input with
  | (none, _) => (r, .error .InvalidTitle)
  | (some validated_title, w₁) =>
    let (validated_description, w₂) := validate_description description_input
    let task : Task :=
      { id := r.next_task_id
        title := validated_title
        description := validated_description
        status := "Pending" }
    ({ tasks := r.tasks ++ [(r.next_task_id, task)]
       next_task_id := r.next_task_id + 1 },
     .ok (task, w₁.toList ++ w₂.toList))

/-- `view_tasks`: display all tasks sorted by id — `sorted(task_store.keys())`
followed by a lookup of each key.  Read-only. -/
def view_tasks (r : Repo) : Repo × List Task :=
  (r, (List.insertionSort (· ≤ ·) (r.tasks.map Prod.fst)).filterMap
        (fun task_id => r.tasks.lookup task_id))

/-- `update_task`: look the task up (absent id is the `NotFound` failure);
an empty *stripped* title input means "keep current", otherwise the input is
validated as in `add_task` (the `validated_title is None` retry branch is
unreachable because the stripped input is non-empty and `strip` is
idempotent, so it keeps the current title); an empty *raw* description input
means "keep current", otherwise the input goes through
`validate_description`.  `id` and `status` are copied unchanged. -/
def update_task (r : Repo) (task_id : Nat) (title_input description_input : Str) :
    Repo × Except Err Task :=
  match r.tasks.lookup task_id with
  | none => (r, .error .NotFound)
  | some task =>
    let title_input := strip title_input
    let new_title :=
      if title_input = [] then task.title
      else
        match validate_title title_input with
        | (some validated_title, _) => validated_title
        | (none, _) => task.title
    let new_description :=
      if description_input = [] then task.description
      else (validate_description description_input).1
    let task' : Task :=
      { task with title := new_title, description := new_description }
    ({ r with tasks := r.tasks.map (fun p => if p.1 = task_id then (p.1, task') else p) },
     .ok task')

/-- `delete_task`: look the task up (absent id is the `NotFound` failure),
then `del task_store[task_id]`. -/
def delete_task (r : Repo) (task_id : Nat) : Repo × Except Err Unit :=
  match r.tasks.lookup task_id with
  | none => (r, .error .NotFound)
  | some _ =>
    ({ r with tasks := r.tasks.filter (fun p => p.1 != task_id) }, .ok ())

/-- `toggle_task_status`: look the task up (absent id is the `NotFound`
failure), then flip `"Pending"` to `"Completed"` and anything else to
`"Pending"`. -/
def toggle_task_status (r : Repo) (task_id : Nat) : Repo × Except Err Task :=
  match r.tasks.lookup task_id with
  | none => (r, .error .NotFound)
  | some task =>
    let task' : Task :=
      { task with status := if task.status = "Pending" then "Completed" else "Pending" }
    ({ r with tasks := r.tasks.map (fun p => if p.1 = task_id then (p.1, task') else p) },
     .ok task')

/-- The repository invariant stated by the specification: keys match the
stored `id` field, titles are non-empty and at most 100 characters,
descriptions at most 500 characters, statuses are one of the two defined
values, and `next_task_id` is strictly above every present id. -/
def Repo.Inv (r : Repo) : Prop :=
  (∀ p ∈ r.tasks, p.1 = p.2.id) ∧
  (∀ p ∈ r.tasks, p.2.title ≠ [] ∧ p.2.title.length ≤ 100) ∧
  (∀ p ∈ r.tasks, p.2.description.length ≤ 500) ∧
  (∀ p ∈ r.tasks, p.2.status = "Pending" ∨ p.2.status = "Completed") ∧
  (∀ p ∈ r.tasks, p.1 < r.next_task_id)

instance (r : Repo) : Decidable r.Inv := by
  unfold Repo.Inv; infer_instance

/-- One user interaction with the repository, for reasoning about arbitrary
operation sequences. -/
inductive Op where
  | create (title description : Str)
  | view
  | get (id : Nat)
  | update (id : Nat) (title description : Str)
  | delete (id : Nat)
  | toggle (id : Nat)

/-- The state reached after one operation (outcomes discarded). -/
def applyOp (r : Repo) : Op → Repo
  | .create t d => (add_task r t d).1
  | .view => (view_tasks r).1
  | .get i => (find_task r i).1
  | .update i t d => (update_task r i t d).1
  | .delete i => (delete_task r i).1
  | .toggle i => (toggle_task_status r i).1

/-- The state reached after a sequence of operations. -/
def run (r : Repo) (ops : List Op) : Repo := ops.foldl applyOp r

/-- Run a sequence of `add_task` calls, collecting the outcome of each call
as the created id (or the error). -/
def runCreates : Repo → List (Str × Str) → Repo × List (Except Err Nat)
  | r, [] => (r, [])
  | r, (t, d) :: rest =>
    let step := add_task r t d
    let next := runCreates step.1 rest
    (next.1, step.2.map (fun x => x.1.id) :: next.2)

/-! ### Association-list helper lemmas -/

theorem lookup_cons_eq {β : Type} (k k' : Nat) (v' : β) (l : List (Nat × β)) :
    ((k', v') :: l).lookup k = if k = k' then some v' else l.lookup k := by
  rw [List.lookup_cons]
  by_cases hk : k = k'
  · have hb : (k == k') = true := by simpa using hk
    rw [hb, if_pos hk]
  · have hb : (k == k') = false := by simpa using hk
    rw [hb, if_neg hk]

theorem lookup_mem {l : List (Nat × Task)} {k : Nat} {v : Task}
    (h : l.lookup k = some v) : (k, v) ∈ l := by
  induction l with
  | nil => simp at h
  | cons p l ih =>
    obtain ⟨k', v'⟩ := p
    rw [lookup_cons_eq] at h
    by_cases hk : k = k'
    · rw [if_pos hk] at h
      obtain rfl := Option.some.inj h
      rw [hk]
      exact List.mem_cons_self _ _
    · rw [if_neg hk] at h
      exact List.mem_cons_of_mem _ (ih h)

theorem lookup_map_set {l : List (Nat × Task)} {k : Nat} {v : Task} (c : Task)
    (h : l.lookup k = some v) :
    (l.map fun p => if p.1 = k then (p.1, c) else p).lookup k = some c := by
  induction l with
  | nil => simp at h
  | cons p l ih =>
    obtain ⟨k', v'⟩ := p
    rw [lookup_cons_eq] at h
    by_cases hk : k = k'
    · subst hk
      have hf : (if ((k : Nat), v').1 = k then (((k : Nat), v').1, c) else (k, v')) = (k, c) := by
        simp
      rw [List.map_cons, hf, lookup_cons_eq, if_pos rfl]
    · rw [if_neg hk] at h
      simp only [List.map_cons]
      by_cases hk' : k' = k
      · exact absurd hk'.symm hk
      · rw [if_neg hk', lookup_cons_eq, if_neg hk]
        exact ih h

theorem lookup_map_set_ne (l : List (Nat × Task)) (k j : Nat) (c : Task)
    (hjk : j ≠ k) :
    (l.map fun p => if p.1 = k then (p.1, c) else p).lookup j = l.lookup j := by
  induction l with
  | nil => simp
  | cons p l ih =>
    obtain ⟨k', v'⟩ := p
    simp only [List.map_cons]
    by_cases hk : k' = k
    · rw [if_pos hk, lookup_cons_eq, lookup_cons_eq]
      rw [if_neg (hk ▸ hjk), if_neg (hk ▸ hjk)]
      exact ih
    · rw [if_neg hk, lookup_cons_eq, lookup_cons_eq]
      by_cases hj : j = k'
      · rw [if_pos hj, if_pos hj]
      · rw [if_neg hj, if_neg hj]
        exact ih

theorem lookup_filter_self (l : List (Nat × Task)) (k : Nat) :
    (l.filter fun p => p.1 != k).lookup k = none := by
  induction l with
  | nil => simp
  | cons p l ih =>
    obtain ⟨k', v'⟩ := p
    rw [List.filter_cons]
    by_cases hk : k' = k
    · have hb : ((k', v').1 != k) = false := by simpa using hk
      rw [hb, if_neg (by simp)]
      exact ih
    · have hb : ((k', v').1 != k) = true := by simpa using hk
      rw [hb, if_pos rfl, lookup_cons_eq, if_neg (fun h => hk h.symm)]
      exact ih

theorem lookup_filter_ne (l : List (Nat × Task)) (k j : Nat) (hjk : j ≠ k) :
    (l.filter fun p => p.1 != k).lookup j = l.lookup j := by
  induction l with
  | nil => simp
  | cons p l ih =>
    obtain ⟨k', v'⟩ := p
    rw [List.filter_cons]
    by_cases hk : k' = k
    · have hb : ((k', v').1 != k) = false := by simpa using hk
      rw [hb, if_neg (by simp), lookup_cons_eq, if_neg (fun h => hjk (h.trans hk))]
      exact ih
    · have hb : ((k', v').1 != k) = true := by simpa using hk
      rw [hb, if_pos rfl, lookup_cons_eq, lookup_cons_eq]
      by_cases hj : j = k'
      · rw [if_pos hj, if_pos hj]
      · rw [if_neg hj, if_neg hj]
        exact ih

/-! ### Validation helper lemmas -/

theorem validate_title_fst_eq_none_iff (s : Str) :
    (validate_title s).1 = none ↔ strip s = [] := by
  unfold validate_title
  by_cases h : strip s = []
  · simp [h]
  · by_cases hl : (strip s).length > 100 <;> simp [h, hl]

theorem validate_title_some {s t : Str} {w : Option String}
    (h : validate_title s = (some t, w)) : t ≠ [] ∧ t.length ≤ 100 := by
  unfold validate_title at h
  by_cases hs : strip s = []
  · rw [if_pos hs] at h
    simp at h
  · rw [if_neg hs] at h
    by_cases hl : (strip s).length > 100
    · rw [if_pos hl] at h
      simp only [Prod.mk.injEq, Option.some.injEq] at h
      obtain ⟨ht, -⟩ := h
      subst ht
      constructor
      · intro hnil
        have h1 : (List.take 100 (strip s)).length = 0 := by rw [hnil]; rfl
        rw [List.length_take] at h1
        omega
      · rw [List.length_take]
        omega
    · rw [if_neg hl] at h
      simp only [Prod.mk.injEq, Option.some.injEq] at h
      obtain ⟨ht, -⟩ := h
      subst ht
      exact ⟨hs, by omega⟩

theorem validate_description_fst_length_le (s : Str) :
    (validate_description s).1.length ≤ 500 := by
  unfold validate_description
  by_cases h : s.length > 500
  · rw [if_pos h]
    simp only [List.length_take]
    omega
  · rw [if_neg h]
    show s.length ≤ 500
    omega

/-! ### Invariant preservation, one lemma per state-changing operation -/

theorem add_task_inv (r : Repo) (h : r.Inv) (t d : Str) : (add_task r t d).1.Inv := by
  obtain ⟨h1, h2, h3, h4, h5⟩ := h
  unfold add_task
  rcases hv : validate_title t with ⟨vt, w₁⟩
  cases vt with
  | none => exact ⟨h1, h2, h3, h4, h5⟩
  | some validated_title =>
    rcases hd : validate_description d with ⟨vd, w₂⟩
    refine ⟨?_, ?_, ?_, ?_, ?_⟩ <;>
      intro p hp <;>
      rcases List.mem_append.1 hp with hp' | hp'
    · exact h1 p hp'
    · rw [List.mem_singleton.1 hp']
    · exact h2 p hp'
    · rw [List.mem_singleton.1 hp']
      have := validate_title_some hv
      exact this
    · exact h3 p hp'
    · rw [List.mem_singleton.1 hp']
      have := validate_description_fst_length_le d
      rw [hd] at this
      exact this
    · exact h4 p hp'
    · rw [List.mem_singleton.1 hp']
      left
      rfl
    · exact Nat.lt_succ_of_lt (h5 p hp')
    · rw [List.mem_singleton.1 hp']
      exact Nat.lt_succ_self _

theorem update_task_inv (r : Repo) (h : r.Inv) (i : Nat) (t d : Str) :
    (update_task r i t d).1.Inv := by
  obtain ⟨h1, h2, h3, h4, h5⟩ := h
  unfold update_task
  rcases hl : r.tasks.lookup i with - | task
  · exact ⟨h1, h2, h3, h4, h5⟩
  · have hmem : (i, task) ∈ r.tasks := lookup_mem hl
    have hid : i = task.id := h1 _ hmem
    have htitle :
        (if strip t = [] then task.title
         else match validate_title (strip t) with
              | (some validated_title, _) => validated_title
              | (none, _) => task.title) ≠ [] ∧
        (if strip t = [] then task.title
         else match validate_title (strip t) with
              | (some validated_title, _) => validated_title
              | (none, _) => task.title).length ≤ 100 := by
      by_cases hst : strip t = []
      · rw [if_pos hst]
        exact h2 _ hmem
      · rw [if_neg hst]
        rcases hv : validate_title (strip t) with ⟨vt, w⟩
        cases vt with
        | none => exact h2 _ hmem
        | some validated_title => exact validate_title_some hv
    have hdescr :
        (if d = [] then task.description else (validate_description d).1).length ≤ 500 := by
      by_cases hd : d = []
      · rw [if_pos hd]
        exact h3 _ hmem
      · rw [if_neg hd]
        exact validate_description_fst_length_le d
    refine ⟨?_, ?_, ?_, ?_, ?_⟩ <;>
      intro p hp <;>
      obtain ⟨q, hq, rfl⟩ := List.mem_map.1 hp <;>
      by_cases hq1 : q.1 = i
    · rw [if_pos hq1]
      rw [hq1, hid]
    · rw [if_neg hq1]
      exact h1 q hq
    · rw [if_pos hq1]
      exact htitle
    · rw [if_neg hq1]
      exact h2 q hq
    · rw [if_pos hq1]
      exact hdescr
    · rw [if_neg hq1]
      exact h3 q hq
    · rw [if_pos hq1]
      exact h4 (i, task) hmem
    · rw [if_neg hq1]
      exact h4 q hq
    · rw [if_pos hq1]
      show q.1 < r.next_task_id
      rw [hq1]
      exact h5 (i, task) hmem
    · rw [if_neg hq1]
      exact h5 q hq

theorem delete_task_inv (r : Repo) (h : r.Inv) (i : Nat) : (delete_task r i).1.Inv := by
  obtain ⟨h1, h2, h3, h4, h5⟩ := h
  unfold delete_task
  rcases hl : r.tasks.lookup i with - | task
  · exact ⟨h1, h2, h3, h4, h5⟩
  · refine ⟨?_, ?_, ?_, ?_, ?_⟩ <;>
      intro p hp
    · exact h1 p (List.mem_of_mem_filter hp)
    · exact h2 p (List.mem_of_mem_filter hp)
    · exact h3 p (List.mem_of_mem_filter hp)
    · exact h4 p (List.mem_of_mem_filter hp)
    · exact h5 p (List.mem_of_mem_filter hp)

theorem toggle_task_status_inv (r : Repo) (h : r.Inv) (i : Nat) :
    (toggle_task_status r i).1.Inv := by
  obtain ⟨h1, h2, h3, h4, h5⟩ := h
  unfold toggle_task_status
  rcases hl : r.tasks.lookup i with - | task
  · exact ⟨h1, h2, h3, h4, h5⟩
  · have hmem : (i, task) ∈ r.tasks := lookup_mem hl
    have hid : i = task.id := h1 _ hmem
    refine ⟨?_, ?_, ?_, ?_, ?_⟩ <;>
      intro p hp <;>
      obtain ⟨q, hq, rfl⟩ := List.mem_map.1 hp <;>
      by_cases hq1 : q.1 = i
    · rw [if_pos hq1]
      rw [hq1, hid]
    · rw [if_neg hq1]
      exact h1 q hq
    · rw [if_pos hq1]
      exact h2 (i, task) hmem
    · rw [if_neg hq1]
      exact h2 q hq
    · rw [if_pos hq1]
      exact h3 (i, task) hmem
    · rw [if_neg hq1]
      exact h3 q hq
    · rw [if_pos hq1]
      by_cases hs : task.status = "Pending"
      · rw [if_pos hs]
        right
        rfl
      · rw [if_neg hs]
        left
        rfl
    · rw [if_neg hq1]
      exact h4 q hq
    · rw [if_pos hq1]
      show q.1 < r.next_task_id
      rw [hq1]
      exact h5 (i, task) hmem
    · rw [if_neg hq1]
      exact h5 q hq

/-- A concrete two-task repository used by the witnesses below:
task 1 is `("t", "d", Pending)`, task 2 is `("u", "", Pending)`. -/
def exampleRepo : Repo := (runCreates initRepo [(['t'], ['d']), (['u'], [])]).1

/-! ### Claim theorems -/

/-- C1: every repository operation — create (`add_task`), list (`view_tasks`),
get (`find_task`), update (`update_task`), delete (`delete_task`) and
toggleStatus (`toggle_task_status`) — preserves the repository invariant:
keys equal the `id` of their record, titles are non-empty and at most 100
characters, descriptions at most 500 characters, statuses are exactly
`"Pending"` or `"Completed"`, and `next_task_id` is strictly greater than
every id in the mapping. -/
theorem C1_operations_preserve_invariant (r : Repo) (h : r.Inv) :
    (∀ t d, (add_task r t d).1.Inv) ∧
    (view_tasks r).1.Inv ∧
    (∀ i, (find_task r i).1.Inv) ∧
    (∀ i t d, (update_task r i t d).1.Inv) ∧
    (∀ i, (delete_task r i).1.Inv) ∧
    (∀ i, (toggle_task_status r i).1.Inv) :=
  ⟨fun t d => add_task_inv r h t d, h, fun _ => h,
   fun i t d => update_task_inv r h i t d,
   fun i => delete_task_inv r h i,
   fun i => toggle_task_status_inv r h i⟩

/-- Witness for C1 at the concrete two-task repository. -/
theorem C1_operations_preserve_invariant_witness :
    (∀ t d, (add_task exampleRepo t d).1.Inv) ∧
    (view_tasks exampleRepo).1.Inv ∧
    (∀ i, (find_task exampleRepo i).1.Inv) ∧
    (∀ i t d, (update_task exampleRepo i t d).1.Inv) ∧
    (∀ i, (delete_task exampleRepo i).1.Inv) ∧
    (∀ i, (toggle_task_status exampleRepo i).1.Inv) :=
  C1_operations_preserve_invariant exampleRepo (by decide)

/-- C3: `find_task`, `update_task`, `delete_task` and `toggle_task_status`
fail with `NotFound` (for `find_task`: return `none`) exactly when the id is
absent from the store, and succeed exactly when it is present; after a
successful delete a subsequent get yields `NotFound`; get never mutates the
state. -/
theorem C3_not_found_iff_absent (r : Repo) (i : Nat) :
    ((find_task r i).2 = none ↔ r.tasks.lookup i = none) ∧
    (∀ t d, ((update_task r i t d).2 = .error .NotFound ↔ r.tasks.lookup i = none) ∧
            ((update_task r i t d).2.isOk = true ↔ (r.tasks.lookup i).isSome = true)) ∧
    (((delete_task r i).2 = .error .NotFound ↔ r.tasks.lookup i = none) ∧
     ((delete_task r i).2.isOk = true ↔ (r.tasks.lookup i).isSome = true)) ∧
    (((toggle_task_status r i).2 = .error .NotFound ↔ r.tasks.lookup i = none) ∧
     ((toggle_task_status r i).2.isOk = true ↔ (r.tasks.lookup i).isSome = true)) ∧
    ((delete_task r i).2 = .ok () → (find_task (delete_task r i).1 i).2 = none) ∧
    ((find_task r i).1 = r) := by
  refine ⟨Iff.rfl, fun t d => ?_, ?_, ?_, ?_, rfl⟩
  · unfold update_task
    rcases hl : r.tasks.lookup i with - | task <;> simp [hl, Except.isOk, Except.toBool]
  · unfold delete_task
    rcases hl : r.tasks.lookup i with - | task <;> simp [hl, Except.isOk, Except.toBool]
  · unfold toggle_task_status
    rcases hl : r.tasks.lookup i with - | task <;> simp [hl, Except.isOk, Except.toBool]
  · unfold delete_task find_task
    rcases hl : r.tasks.lookup i with - | task
    · intro h
      simp at h
    · intro _
      exact lookup_filter_self r.tasks i

/-- Witness for C3: at the concrete two-task repository, deleting task 1
succeeds and the subsequent get of id 1 indeed yields `NotFound`. -/
theorem C3_not_found_iff_absent_witness :
    (find_task (delete_task exampleRepo 1).1 1).2 = none :=
  (C3_not_found_iff_absent exampleRepo 1).2.2.2.2.1 (by decide)

/-- C4: for an id present in the store with a well-formed status,
`toggle_task_status` returns the task with `"Pending"` flipped to
`"Completed"` and `"Completed"` flipped to `"Pending"`, changing no other
field, and applying it twice in succession restores the original status. -/
theorem toggle_task_status_spec {r : Repo} {i : Nat} {task : Task}
    (h : r.tasks.lookup i = some task) :
    toggle_task_status r i =
      ({ r with tasks := r.tasks.map fun p => if p.1 = i then
            (p.1, { task with status := if task.status = "Pending" then "Completed" else "Pending" })
          else p },
       .ok { task with status := if task.status = "Pending" then "Completed" else "Pending" }) := by
  unfold toggle_task_status
  rw [h]

theorem C4_toggle_round_trip (r : Repo) (i : Nat) (task : Task)
    (h : r.tasks.lookup i = some task)
    (hs : task.status = "Pending" ∨ task.status = "Completed") :
    ∃ task', (toggle_task_status r i).2 = .ok task' ∧
      task'.id = task.id ∧ task'.title = task.title ∧
      task'.description = task.description ∧
      (task.status = "Pending" → task'.status = "Completed") ∧
      (task.status = "Completed" → task'.status = "Pending") ∧
      ∃ task'', (toggle_task_status (toggle_task_status r i).1 i).2 = .ok task'' ∧
        task''.status = task.status := by
  have h1 := toggle_task_status_spec h
  set task' : Task :=
    { task with status := if task.status = "Pending" then "Completed" else "Pending" } with htask'
  have h2 : (toggle_task_status r i).1.tasks.lookup i = some task' := by
    rw [h1]
    exact lookup_map_set task' h
  have h3 := toggle_task_status_spec h2
  refine ⟨task', by rw [h1], rfl, rfl, rfl, ?_, ?_,
    { task' with status := if task'.status = "Pending" then "Completed" else "Pending" },
    by rw [h3], ?_⟩
  · intro hp
    show (if task.status = "Pending" then "Completed" else "Pending") = "Completed"
    rw [if_pos hp]
  · intro hp
    show (if task.status = "Pending" then "Completed" else "Pending") = "Pending"
    rw [if_neg (by rw [hp]; decide)]
  · show (if task'.status = "Pending" then "Completed" else "Pending") = task.status
    rcases hs with hp | hp
    · have : task'.status = "Completed" := by
        show (if task.status = "Pending" then "Completed" else "Pending") = "Completed"
        rw [if_pos hp]
      rw [this, hp]
      decide
    · have : task'.status = "Pending" := by
        show (if task.status = "Pending" then "Completed" else "Pending") = "Pending"
        rw [if_neg (by rw [hp]; decide)]
      rw [this, hp]
      decide

/-- Witness for C4: toggling task 1 of the concrete repository yields
`Completed`, and toggling twice restores `Pending`. -/
theorem C4_toggle_round_trip_witness :
    ∃ task', (toggle_task_status exampleRepo 1).2 = .ok task' ∧
      task'.id = 1 ∧ task'.title = ['t'] ∧
      task'.description = ['d'] ∧
      ("Pending" = "Pending" → task'.status = "Completed") ∧
      ("Pending" = "Completed" → task'.status = "Pending") ∧
      ∃ task'', (toggle_task_status (toggle_task_status exampleRepo 1).1 1).2 = .ok task'' ∧
        task''.status = "Pending" :=
  C4_toggle_round_trip exampleRepo 1
    { id := 1, title := ['t'], description := ['d'], status := "Pending" }
    (by decide) (by decide)

theorem update_task_spec {r : Repo} {i : Nat} {task : Task} (t d : Str)
    (h : r.tasks.lookup i = some task) :
    update_task r i t d =
      ({ r with tasks := r.tasks.map fun p => if p.1 = i then
            (p.1,
             { task with
                title :=
                  if strip t = [] then task.title
                  else
                    match validate_title (strip t) with
                    | (some validated_title, _) => validated_title
                    | (none, _) => task.title
                description :=
                  if d = [] then task.description else (validate_description d).1 })
          else p },
       .ok
         { task with
            title :=
              if strip t = [] then task.title
              else
                match validate_title (strip t) with
                | (some validated_title, _) => validated_title
                | (none, _) => task.title
            description :=
              if d = [] then task.description else (validate_description d).1 }) := by
  unfold update_task
  rw [h]

theorem update_task_none {r : Repo} {i : Nat} (t d : Str)
    (h : r.tasks.lookup i = none) : update_task r i t d = (r, .error .NotFound) := by
  unfold update_task
  rw [h]

theorem delete_task_spec {r : Repo} {i : Nat} {task : Task}
    (h : r.tasks.lookup i = some task) :
    delete_task r i = ({ r with tasks := r.tasks.filter fun p => p.1 != i }, .ok ()) := by
  unfold delete_task
  rw [h]

theorem delete_task_none {r : Repo} {i : Nat}
    (h : r.tasks.lookup i = none) : delete_task r i = (r, .error .NotFound) := by
  unfold delete_task
  rw [h]

theorem toggle_task_status_none {r : Repo} {i : Nat}
    (h : r.tasks.lookup i = none) : toggle_task_status r i = (r, .error .NotFound) := by
  unfold toggle_task_status
  rw [h]

/-- C7: updating an existing task with empty title and empty description
inputs succeeds and keeps title, description, status and id unchanged, and
in general `update_task` never changes the `id` or `status` field of the
updated task. -/
theorem C7_update_empty_keeps_fields (r : Repo) (i : Nat) (task : Task)
    (h : r.tasks.lookup i = some task) :
    ((update_task r i [] []).2 = .ok task ∧
     (update_task r i [] []).1.tasks.lookup i = some task ∧
     (update_task r i [] []).1.next_task_id = r.next_task_id) ∧
    (∀ t d, ∃ task', (update_task r i t d).2 = .ok task' ∧
        task'.id = task.id ∧ task'.status = task.status) := by
  have h0 : update_task r i [] [] =
      ({ r with tasks := r.tasks.map fun p => if p.1 = i then (p.1, task) else p },
       .ok task) := by
    unfold update_task
    rw [h]
    rfl
  refine ⟨⟨by rw [h0], ?_, by rw [h0]⟩, ?_⟩
  · rw [h0]
    exact lookup_map_set task h
  · intro t d
    refine ⟨{ task with
        title :=
          if strip t = [] then task.title
          else
            match validate_title (strip t) with
            | (some validated_title, _) => validated_title
            | (none, _) => task.title
        description := if d = [] then task.description else (validate_description d).1 },
      ?_, rfl, rfl⟩
    rw [update_task_spec t d h]

/-- Witness for C7 at the concrete two-task repository, id 2. -/
theorem C7_update_empty_keeps_fields_witness :
    ((update_task exampleRepo 2 [] []).2 =
        .ok { id := 2, title := ['u'], description := [], status := "Pending" } ∧
     (update_task exampleRepo 2 [] []).1.tasks.lookup 2 =
        some { id := 2, title := ['u'], description := [], status := "Pending" } ∧
     (update_task exampleRepo 2 [] []).1.next_task_id = exampleRepo.next_task_id) ∧
    (∀ t d, ∃ task', (update_task exampleRepo 2 t d).2 = .ok task' ∧
        task'.id = 2 ∧ task'.status = "Pending") :=
  C7_update_empty_keeps_fields exampleRepo 2
    { id := 2, title := ['u'], description := [], status := "Pending" } (by decide)

/-- C10: `update_task` and `toggle_task_status` leave every task stored
under a different id and the `next_task_id` counter unchanged, and change
only the stated fields of the addressed task (`update_task` keeps `id` and
`status`; `toggle_task_status` keeps `id`, `title` and `description`);
`delete_task` removes exactly the addressed record, leaving all other tasks
and `next_task_id` unchanged. -/
theorem C10_frame_properties (r : Repo) (i : Nat) :
    (∀ t d j, j ≠ i → (update_task r i t d).1.tasks.lookup j = r.tasks.lookup j) ∧
    (∀ t d, (update_task r i t d).1.next_task_id = r.next_task_id) ∧
    (∀ j, j ≠ i → (toggle_task_status r i).1.tasks.lookup j = r.tasks.lookup j) ∧
    ((toggle_task_status r i).1.next_task_id = r.next_task_id) ∧
    (∀ task, r.tasks.lookup i = some task →
        ∃ task', (toggle_task_status r i).1.tasks.lookup i = some task' ∧
          task'.id = task.id ∧ task'.title = task.title ∧
          task'.description = task.description) ∧
    (∀ task t d, r.tasks.lookup i = some task →
        ∃ task', (update_task r i t d).1.tasks.lookup i = some task' ∧
          task'.id = task.id ∧ task'.status = task.status) ∧
    (∀ j, j ≠ i → (delete_task r i).1.tasks.lookup j = r.tasks.lookup j) ∧
    ((delete_task r i).1.next_task_id = r.next_task_id) ∧
    ((delete_task r i).2 = .ok () → (delete_task r i).1.tasks.lookup i = none) := by
  rcases hl : r.tasks.lookup i with - | task
  · refine ⟨?_, ?_, ?_, ?_, ?_, ?_, ?_, ?_, ?_⟩
    · intro t d j hj
      rw [update_task_none t d hl]
    · intro t d
      rw [update_task_none t d hl]
    · intro j hj
      rw [toggle_task_status_none hl]
    · rw [toggle_task_status_none hl]
    · intro task htask
      exact absurd htask (by simp)
    · intro task t d htask
      exact absurd htask (by simp)
    · intro j hj
      rw [delete_task_none hl]
    · rw [delete_task_none hl]
    · rw [delete_task_none hl]
      intro hcontra
      exact absurd hcontra (by simp)
  · refine ⟨?_, ?_, ?_, ?_, ?_, ?_, ?_, ?_, ?_⟩
    · intro t d j hj
      rw [update_task_spec t d hl]
      exact lookup_map_set_ne r.tasks i j _ hj
    · intro t d
      rw [update_task_spec t d hl]
    · intro j hj
      rw [toggle_task_status_spec hl]
      exact lookup_map_set_ne r.tasks i j _ hj
    · rw [toggle_task_status_spec hl]
    · intro task₀ htask
      obtain rfl := Option.some.inj htask
      refine ⟨{ task with
          status := if task.status = "Pending" then "Completed" else "Pending" },
        ?_, rfl, rfl, rfl⟩
      rw [toggle_task_status_spec hl]
      exact lookup_map_set _ hl
    · intro task₀ t d htask
      obtain rfl := Option.some.inj htask
      refine ⟨{ task with
          title :=
            if strip t = [] then task.title
            else
              match validate_title (strip t) with
              | (some validated_title, _) => validated_title
              | (none, _) => task.title
          description := if d = [] then task.description else (validate_description d).1 },
        ?_, rfl, rfl⟩
      rw [update_task_spec t d hl]
      exact lookup_map_set _ hl
    · intro j hj
      rw [delete_task_spec hl]
      exact lookup_filter_ne r.tasks i j hj
    · rw [delete_task_spec hl]
    · intro _
      rw [delete_task_spec hl]
      exact lookup_filter_self r.tasks i

/-- Witness for C10: in the concrete two-task repository, updating,
toggling or deleting task 1 leaves task 2 in place, and the delete removes
task 1. -/
theorem C10_frame_properties_witness :
    (update_task exampleRepo 1 ['x'] []).1.tasks.lookup 2 = exampleRepo.tasks.lookup 2 ∧
    (toggle_task_status exampleRepo 1).1.tasks.lookup 2 = exampleRepo.tasks.lookup 2 ∧
    (delete_task exampleRepo 1).1.tasks.lookup 2 = exampleRepo.tasks.lookup 2 ∧
    (delete_task exampleRepo 1).1.tasks.lookup 1 = none :=
  ⟨(C10_frame_properties exampleRepo 1).1 ['x'] [] 2 (by decide),
   (C10_frame_properties exampleRepo 1).2.2.1 2 (by decide),
   (C10_frame_properties exampleRepo 1).2.2.2.2.2.2.1 2 (by decide),
   (C10_frame_properties exampleRepo 1).2.2.2.2.2.2.2.2 (by decide)⟩

theorem add_task_spec {r : Repo} {t : Str} (d : Str) {vt : Str} {w : Option String}
    (h : validate_title t = (some vt, w)) :
    add_task r t d =
      ({ tasks := r.tasks ++ [(r.next_task_id,
            { id := r.next_task_id, title := vt,
              description := (validate_description d).1, status := "Pending" })]
         next_task_id := r.next_task_id + 1 },
       .ok ({ id := r.next_task_id, title := vt,
              description := (validate_description d).1, status := "Pending" },
            w.toList ++ (validate_description d).2.toList)) := by
  unfold add_task
  rw [h]

theorem add_task_invalid {r : Repo} {t : Str} (d : Str) (h : strip t = []) :
    add_task r t d = (r, .error .InvalidTitle) := by
  have hv : validate_title t = (none, some "Title cannot be empty") := by
    unfold validate_title
    rw [if_pos h]
  unfold add_task
  rw [hv]

theorem validate_title_some_of_strip_ne {t : Str} (h : strip t ≠ []) :
    ∃ vt w, validate_title t = (some vt, w) := by
  rcases hv : validate_title t with ⟨o, w⟩
  cases o with
  | none =>
    have h1 := (validate_title_fst_eq_none_iff t).1
    rw [hv] at h1
    exact absurd (h1 rfl) h
  | some vt => exact ⟨vt, w, rfl⟩

set_option maxRecDepth 4000 in
/-- C5 counterexample: the 150-character title `'a'` followed by 149 spaces
is non-empty after stripping, so create succeeds — but the stored title is
`"a"` (length 1, not 100) and no `Truncated` warning is raised, because
`validate_title` strips the input before measuring its length. -/
theorem C5_counterexample :
    ('a' :: List.replicate 149 ' ').length = 150 ∧
    strip ('a' :: List.replicate 149 ' ') ≠ [] ∧
    (add_task initRepo ('a' :: List.replicate 149 ' ') []).2 =
      .ok ({ id := 1, title := ['a'], description := [], status := "Pending" }, []) ∧
    (['a'] : Str).length = 1 := by decide

/-- C5 amended: for every title whose *stripped* form is longer than 100
characters, create succeeds, the stored title equals the first 100
characters of the stripped input (so has length exactly 100), and a
`Truncated` warning is surfaced; in particular this holds for any
length-150 title without surrounding whitespace. -/
theorem C5_amended_truncation (r : Repo) (title descr : Str)
    (h : 100 < (strip title).length) :
    ∃ task w, (add_task r title descr).2 = .ok (task, w) ∧
      task.title = (strip title).take 100 ∧
      task.title.length = 100 ∧
      "Title truncated to 100 characters" ∈ w := by
  have hne : strip title ≠ [] := by
    intro hnil
    rw [hnil] at h
    simp at h
  have hv : validate_title title =
      (some ((strip title).take 100), some "Title truncated to 100 characters") := by
    unfold validate_title
    rw [if_neg hne, if_pos (by omega)]
  refine ⟨{ id := r.next_task_id, title := (strip title).take 100,
            description := (validate_description descr).1, status := "Pending" },
          (some "Title truncated to 100 characters").toList ++
            (validate_description descr).2.toList,
          by rw [add_task_spec descr hv], rfl, ?_, ?_⟩
  · show (List.take 100 (strip title)).length = 100
    rw [List.length_take]
    omega
  · show _ ∈ "Title truncated to 100 characters" :: _
    exact List.mem_cons_self _ _

set_option maxRecDepth 4000 in
/-- Witness for the amended C5 at the all-`'a'` title of length 150. -/
theorem C5_amended_truncation_witness :
    ∃ task w, (add_task initRepo (List.replicate 150 'a') []).2 = .ok (task, w) ∧
      task.title = (strip (List.replicate 150 'a')).take 100 ∧
      task.title.length = 100 ∧
      "Title truncated to 100 characters" ∈ w :=
  C5_amended_truncation initRepo (List.replicate 150 'a') [] (by decide)

/-- C6: create with a title that is empty after stripping fails with
`InvalidTitle` and leaves the state untouched, so the next create behaves
exactly as if the failed call never happened; and every `InvalidTitle` or
`NotFound` failure of any operation leaves the repository state exactly as
it was. -/
theorem C6_invalid_title_atomic (r : Repo) (t d : Str) (h : strip t = []) :
    ((add_task r t d).2 = .error .InvalidTitle ∧ (add_task r t d).1 = r) ∧
    (∀ t' d', add_task (add_task r t d).1 t' d' = add_task r t' d') ∧
    (∀ t' d' e, (add_task r t' d').2 = .error e → (add_task r t' d').1 = r) ∧
    (∀ i t' d' e, (update_task r i t' d').2 = .error e → (update_task r i t' d').1 = r) ∧
    (∀ i e, (delete_task r i).2 = .error e → (delete_task r i).1 = r) ∧
    (∀ i e, (toggle_task_status r i).2 = .error e → (toggle_task_status r i).1 = r) := by
  refine ⟨⟨?_, ?_⟩, ?_, ?_, ?_, ?_, ?_⟩
  · rw [add_task_invalid d h]
  · rw [add_task_invalid d h]
  · intro t' d'
    rw [add_task_invalid d h]
  · intro t' d' e he
    by_cases hs : strip t' = []
    · rw [add_task_invalid d' hs]
    · obtain ⟨vt, w, hv⟩ := validate_title_some_of_strip_ne hs
      rw [add_task_spec d' hv] at he
      exact absurd he (by simp)
  · intro i t' d' e he
    rcases hl : r.tasks.lookup i with - | task
    · rw [update_task_none t' d' hl]
    · rw [update_task_spec t' d' hl] at he
      exact absurd he (by simp)
  · intro i e he
    rcases hl : r.tasks.lookup i with - | task
    · rw [delete_task_none hl]
    · rw [delete_task_spec hl] at he
      exact absurd he (by simp)
  · intro i e he
    rcases hl : r.tasks.lookup i with - | task
    · rw [toggle_task_status_none hl]
    · rw [toggle_task_status_spec hl] at he
      exact absurd he (by simp)

/-- Witness for C6: a whitespace-only title fails with `InvalidTitle` on
the concrete repository, changes nothing, and the following create is
unaffected. -/
theorem C6_invalid_title_atomic_witness :
    (add_task exampleRepo [' '] ['x']).2 = .error .InvalidTitle ∧
    (add_task exampleRepo [' '] ['x']).1 = exampleRepo ∧
    add_task (add_task exampleRepo [' '] ['x']).1 ['v'] [] =
      add_task exampleRepo ['v'] [] := by
  have h := C6_invalid_title_atomic exampleRepo [' '] ['x'] (by decide)
  exact ⟨h.1.1, h.1.2, h.2.1 ['v'] []⟩

/-- C8 counterexample: with task 1 having description `"o"`, an update
whose new description is the whitespace-only string `" "` — empty after
stripping — does not keep the current description: the stored description
becomes `" "`, because the code tests the raw input for emptiness without
stripping it. -/
theorem C8_counterexample :
    strip [' '] = [] ∧
    (add_task initRepo ['t'] ['o']).1.tasks.lookup 1 =
      some { id := 1, title := ['t'], description := ['o'], status := "Pending" } ∧
    (update_task (add_task initRepo ['t'] ['o']).1 1 [] [' ']).2 =
      .ok { id := 1, title := ['t'], description := [' '], status := "Pending" } ∧
    ([' '] : Str) ≠ (['o'] : Str) := by decide

/-- C8 amended: the keep-current rule of update for the description fires
exactly when the raw input is the empty string (unlike the title input,
which is stripped before the emptiness test); any non-empty input —
including whitespace-only input — replaces the description, normalized by
the same `validate_description` truncate-to-500 rule that create uses. -/
theorem C8_description_raw_empty_rule (r : Repo) (i : Nat) (task : Task)
    (h : r.tasks.lookup i = some task) (t d : Str) :
    (∃ task', (update_task r i t d).2 = .ok task' ∧
       task'.description =
         (if d = [] then task.description else (validate_description d).1)) ∧
    (∀ t₀ d₀ task₀ w, (add_task r t₀ d₀).2 = .ok (task₀, w) →
       task₀.description = (validate_description d₀).1) := by
  constructor
  · refine ⟨{ task with
        title :=
          if strip t = [] then task.title
          else
            match validate_title (strip t) with
            | (some validated_title, _) => validated_title
            | (none, _) => task.title
        description := if d = [] then task.description else (validate_description d).1 },
      ?_, rfl⟩
    rw [update_task_spec t d h]
  · intro t₀ d₀ task₀ w hok
    by_cases hs : strip t₀ = []
    · rw [add_task_invalid d₀ hs] at hok
      exact absurd hok (by simp)
    · obtain ⟨vt, w₁, hv⟩ := validate_title_some_of_strip_ne hs
      rw [add_task_spec d₀ hv] at hok
      have h1 : task₀ =
          { id := r.next_task_id, title := vt,
            description := (validate_description d₀).1, status := "Pending" } :=
        (congrArg Prod.fst (Except.ok.inj hok)).symm
      rw [h1]

/-- Witness for the amended C8: updating task 1 (description `"o"`) with
the non-empty description `"x "` stores `validate_description "x "`. -/
theorem C8_description_raw_empty_rule_witness :
    (∃ task', (update_task (add_task initRepo ['t'] ['o']).1 1 [] ['x', ' ']).2 =
        .ok task' ∧
       task'.description =
         (if (['x', ' '] : Str) = [] then (['o'] : Str)
          else (validate_description ['x', ' ']).1)) ∧
    (∀ t₀ d₀ task₀ w,
       (add_task (add_task initRepo ['t'] ['o']).1 t₀ d₀).2 = .ok (task₀, w) →
       task₀.description = (validate_description d₀).1) :=
  C8_description_raw_empty_rule (add_task initRepo ['t'] ['o']).1 1
    { id := 1, title := ['t'], description := ['o'], status := "Pending" }
    (by decide) [] ['x', ' ']

theorem add_task_ok_id {r : Repo} {t d : Str} {task : Task} {w : List String}
    (h : (add_task r t d).2 = .ok (task, w)) :
    task.id = r.next_task_id ∧
    (add_task r t d).1.next_task_id = r.next_task_id + 1 := by
  by_cases hs : strip t = []
  · rw [add_task_invalid d hs] at h
    exact absurd h (by simp)
  · obtain ⟨vt, w₁, hv⟩ := validate_title_some_of_strip_ne hs
    constructor
    · rw [add_task_spec d hv] at h
      have h1 : task =
          { id := r.next_task_id, title := vt,
            description := (validate_description d).1, status := "Pending" } :=
        (congrArg Prod.fst (Except.ok.inj h)).symm
      rw [h1]
    · rw [add_task_spec d hv]

theorem add_task_next_id (r : Repo) (t d : Str) :
    ((add_task r t d).2.isOk = true →
        (add_task r t d).1.next_task_id = r.next_task_id + 1) ∧
    ((add_task r t d).2.isOk = false →
        (add_task r t d).1.next_task_id = r.next_task_id) := by
  by_cases hs : strip t = []
  · rw [add_task_invalid d hs]
    exact ⟨fun h => by simp [Except.isOk, Except.toBool] at h, fun _ => rfl⟩
  · obtain ⟨vt, w, hv⟩ := validate_title_some_of_strip_ne hs
    rw [add_task_spec d hv]
    exact ⟨fun _ => rfl, fun h => by simp [Except.isOk, Except.toBool] at h⟩

theorem runCreates_ids (inputs : List (Str × Str)) :
    ∀ r : Repo, (∀ p ∈ inputs, strip p.1 ≠ []) →
      (runCreates r inputs).2 =
        (List.range' r.next_task_id inputs.length).map Except.ok ∧
      (runCreates r inputs).1.next_task_id = r.next_task_id + inputs.length := by
  induction inputs with
  | nil =>
    intro r _
    exact ⟨rfl, rfl⟩
  | cons p rest ih =>
    intro r h
    obtain ⟨t, d⟩ := p
    have ht : strip t ≠ [] := h (t, d) (List.mem_cons_self _ _)
    obtain ⟨vt, w₁, hv⟩ := validate_title_some_of_strip_ne ht
    obtain ⟨ih1, ih2⟩ :=
      ih (add_task r t d).1 (fun q hq => h q (List.mem_cons_of_mem _ hq))
    have hnext : (add_task r t d).1.next_task_id = r.next_task_id + 1 := by
      rw [add_task_spec d hv]
    have hstep : runCreates r ((t, d) :: rest) =
        ((runCreates (add_task r t d).1 rest).1,
         (add_task r t d).2.map (fun x => x.1.id) ::
           (runCreates (add_task r t d).1 rest).2) := rfl
    constructor
    · rw [hstep]
      show (add_task r t d).2.map (fun x => x.1.id) ::
          (runCreates (add_task r t d).1 rest).2 = _
      rw [ih1, hnext]
      have hhead : (add_task r t d).2.map (fun x => x.1.id) =
          Except.ok r.next_task_id := by
        rw [add_task_spec d hv]
        rfl
      rw [hhead]
      show _ = (List.range' r.next_task_id (rest.length + 1)).map Except.ok
      rw [List.range'_succ, List.map_cons]
    · rw [hstep]
      show (runCreates (add_task r t d).1 rest).1.next_task_id = _
      rw [ih2, hnext]
      show r.next_task_id + 1 + rest.length = r.next_task_id + (rest.length + 1)
      omega

theorem applyOp_next_mono (r : Repo) (op : Op) :
    r.next_task_id ≤ (applyOp r op).next_task_id := by
  cases op with
  | create t d =>
    show r.next_task_id ≤ (add_task r t d).1.next_task_id
    by_cases hs : strip t = []
    · rw [add_task_invalid d hs]
    · obtain ⟨vt, w, hv⟩ := validate_title_some_of_strip_ne hs
      rw [add_task_spec d hv]
      exact Nat.le_succ _
  | view => exact Nat.le_refl _
  | get i => exact Nat.le_refl _
  | update i t d =>
    show r.next_task_id ≤ (update_task r i t d).1.next_task_id
    rcases hl : r.tasks.lookup i with - | task
    · rw [update_task_none t d hl]
    · rw [update_task_spec t d hl]
  | delete i =>
    show r.next_task_id ≤ (delete_task r i).1.next_task_id
    rcases hl : r.tasks.lookup i with - | task
    · rw [delete_task_none hl]
    · rw [delete_task_spec hl]
  | toggle i =>
    show r.next_task_id ≤ (toggle_task_status r i).1.next_task_id
    rcases hl : r.tasks.lookup i with - | task
    · rw [toggle_task_status_none hl]
    · rw [toggle_task_status_spec hl]

theorem run_next_mono (ops : List Op) :
    ∀ r : Repo, r.next_task_id ≤ (run r ops).next_task_id := by
  induction ops with
  | nil => exact fun r => Nat.le_refl _
  | cons op ops ih =>
    intro r
    exact Nat.le_trans (applyOp_next_mono r op) (ih (applyOp r op))

/-- C2: from the initial repository, a sequence of creates with titles that
are non-empty after stripping returns exactly the ids `1, 2, …, n` (strictly
increasing, no gaps); `next_task_id` starts at 1, is incremented exactly
once per successful creation, is unchanged by a failed creation, never
decreases across any operation sequence; consequently an id removed by a
successful delete is never reissued by any later create. -/
theorem C2_monotonic_ids :
    initRepo.next_task_id = 1 ∧
    (∀ inputs : List (Str × Str), (∀ p ∈ inputs, strip p.1 ≠ []) →
        (runCreates initRepo inputs).2 =
          (List.range' 1 inputs.length).map Except.ok) ∧
    (∀ (r : Repo) (t d : Str),
        ((add_task r t d).2.isOk = true →
            (add_task r t d).1.next_task_id = r.next_task_id + 1) ∧
        ((add_task r t d).2.isOk = false →
            (add_task r t d).1.next_task_id = r.next_task_id)) ∧
    (∀ (r : Repo) (ops : List Op), r.next_task_id ≤ (run r ops).next_task_id) ∧
    (∀ r : Repo, r.Inv → ∀ i, (delete_task r i).2 = .ok () →
        ∀ (ops : List Op) (t d : Str) (task : Task) (w : List String),
          (add_task (run (delete_task r i).1 ops) t d).2 = .ok (task, w) →
          task.id ≠ i) := by
  refine ⟨rfl, ?_, ?_, ?_, ?_⟩
  · intro inputs h
    exact (runCreates_ids inputs initRepo h).1
  · intro r t d
    exact add_task_next_id r t d
  · intro r ops
    exact run_next_mono ops r
  · intro r hInv i hdel ops t d task w hok
    rcases hl : r.tasks.lookup i with - | v
    · rw [delete_task_none hl] at hdel
      exact absurd hdel (by simp)
    · have hi : i < r.next_task_id := hInv.2.2.2.2 (i, v) (lookup_mem hl)
      have hd1 : (delete_task r i).1.next_task_id = r.next_task_id := by
        rw [delete_task_spec hl]
      have hmono := run_next_mono ops (delete_task r i).1
      have hid := (add_task_ok_id hok).1
      intro hcontra
      rw [hcontra] at hid
      rw [hd1] at hmono
      omega

/-- Witness for C2: three valid creates from the initial repository return
ids 1, 2, 3, and after deleting id 2 a later create issues id 4, not 2. -/
theorem C2_monotonic_ids_witness :
    (runCreates initRepo [(['a'], []), (['b'], ['x']), (['c'], [])]).2 =
      [Except.ok 1, Except.ok 2, Except.ok 3] ∧
    (∀ task w,
        (add_task
          (run (delete_task
                  (runCreates initRepo [(['a'], []), (['b'], ['x']), (['c'], [])]).1
                2).1 []) ['d'] []).2 = .ok (task, w) →
        task.id ≠ 2) := by
  constructor
  · have h := C2_monotonic_ids.2.1 [(['a'], []), (['b'], ['x']), (['c'], [])] (by decide)
    rw [h]
    rfl
  · intro task w hok
    exact C2_monotonic_ids.2.2.2.2
      (runCreates initRepo [(['a'], []), (['b'], ['x']), (['c'], [])]).1
      (by decide) 2 (by decide) [] ['d'] [] task w hok

theorem filterMap_lookup_keys {l : List (Nat × Task)}
    (hnd : (l.map Prod.fst).Nodup) :
    ((l.map Prod.fst).filterMap fun k => l.lookup k) = l.map Prod.snd := by
  induction l with
  | nil => rfl
  | cons p l ih =>
    obtain ⟨k, v⟩ := p
    simp only [List.map_cons] at hnd ⊢
    obtain ⟨hkn, hnd'⟩ := List.nodup_cons.1 hnd
    have h1 : ((k, v) :: l).lookup k = some v := by
      rw [lookup_cons_eq, if_pos rfl]
    have h2 : (l.map Prod.fst).filterMap (fun k' => ((k, v) :: l).lookup k') =
        (l.map Prod.fst).filterMap (fun k' => l.lookup k') := by
      apply List.filterMap_congr
      intro k' hk'
      rw [lookup_cons_eq, if_neg]
      intro he
      exact hkn (he ▸ hk')
    rw [List.filterMap_cons, h1, h2, ih hnd']

theorem map_id_filterMap_lookup {l : List (Nat × Task)}
    (hkeys : ∀ p ∈ l, p.1 = p.2.id) :
    ∀ ks : List Nat, (∀ k ∈ ks, ∃ p ∈ l, k = p.1) →
      ((ks.filterMap fun k => l.lookup k).map Task.id) = ks := by
  intro ks
  induction ks with
  | nil => intro _; rfl
  | cons k ks ih =>
    intro h
    obtain ⟨p, hp, hk⟩ := h k (List.mem_cons_self _ _)
    have hsome : (l.lookup k).isSome :=
      List.lookup_isSome_iff.2 ⟨p, hp, by simpa using hk⟩
    obtain ⟨v, hv⟩ := Option.isSome_iff_exists.1 hsome
    have hvid : v.id = k := (hkeys (k, v) (lookup_mem hv)).symm
    rw [List.filterMap_cons, hv, List.map_cons, hvid,
        ih (fun k' hk' => h k' (List.mem_cons_of_mem _ hk'))]

/-- C9: `view_tasks` returns exactly the tasks of the mapping (a
permutation of the stored records), ordered strictly by ascending id, and
an empty repository yields the empty sequence rather than an error.  The
hypotheses are the well-formedness of the Python dictionary: keys are
unique and each key equals the id of its record. -/
theorem C9_view_tasks_sorted (r : Repo)
    (hnd : (r.tasks.map Prod.fst).Nodup)
    (hkeys : ∀ p ∈ r.tasks, p.1 = p.2.id) :
    (r.tasks = [] → (view_tasks r).2 = []) ∧
    ((view_tasks r).2.Perm (r.tasks.map Prod.snd)) ∧
    ((view_tasks r).2.map Task.id).Sorted (· < ·) := by
  have hperm := List.perm_insertionSort (· ≤ ·) (r.tasks.map Prod.fst)
  refine ⟨?_, ?_, ?_⟩
  · intro h
    show ((List.insertionSort (· ≤ ·) (r.tasks.map Prod.fst)).filterMap
            fun task_id => r.tasks.lookup task_id) = []
    rw [h]
    rfl
  · show ((List.insertionSort (· ≤ ·) (r.tasks.map Prod.fst)).filterMap
            fun task_id => r.tasks.lookup task_id).Perm (r.tasks.map Prod.snd)
    have h1 := hperm.filterMap (fun k => r.tasks.lookup k)
    rw [filterMap_lookup_keys hnd] at h1
    exact h1
  · have hsorted : (List.insertionSort (· ≤ ·) (r.tasks.map Prod.fst)).Sorted (· ≤ ·) :=
      List.sorted_insertionSort (· ≤ ·) (r.tasks.map Prod.fst)
    have hnd2 : (List.insertionSort (· ≤ ·) (r.tasks.map Prod.fst)).Nodup :=
      hperm.symm.nodup hnd
    have hlt : (List.insertionSort (· ≤ ·) (r.tasks.map Prod.fst)).Sorted (· < ·) :=
      (hsorted.and hnd2).imp (fun h => lt_of_le_of_ne h.1 h.2)
    have hmap : (((List.insertionSort (· ≤ ·) (r.tasks.map Prod.fst)).filterMap
          fun k => r.tasks.lookup k).map Task.id) =
        List.insertionSort (· ≤ ·) (r.tasks.map Prod.fst) := by
      apply map_id_filterMap_lookup hkeys
      intro k hk
      have hk2 : k ∈ r.tasks.map Prod.fst := hperm.mem_iff.1 hk
      obtain ⟨p, hp, hpk⟩ := List.mem_map.1 hk2
      exact ⟨p, hp, hpk.symm⟩
    show (((List.insertionSort (· ≤ ·) (r.tasks.map Prod.fst)).filterMap
            fun task_id => r.tasks.lookup task_id).map Task.id).Sorted (· < ·)
    rw [hmap]
    exact hlt

/-- Witness for C9: the empty repository lists nothing, and after creating
tasks 1–3 and deleting task 2, the listing is the remaining tasks in
strictly ascending id order. -/
theorem C9_view_tasks_sorted_witness :
    ((view_tasks initRepo).2 = []) ∧
    ((view_tasks (delete_task
        (runCreates initRepo [(['a'], []), (['b'], []), (['c'], [])]).1 2).1).2.Perm
      ((delete_task
        (runCreates initRepo [(['a'], []), (['b'], []), (['c'], [])]).1 2).1.tasks.map
          Prod.snd)) ∧
    (((view_tasks (delete_task
        (runCreates initRepo [(['a'], []), (['b'], []), (['c'], [])]).1 2).1).2.map
          Task.id).Sorted (· < ·)) :=
  ⟨(C9_view_tasks_sorted initRepo (by decide) (by decide)).1 rfl,
   (C9_view_tasks_sorted
      (delete_task (runCreates initRepo [(['a'], []), (['b'], []), (['c'], [])]).1 2).1
      (by decide) (by decide)).2.1,
   (C9_view_tasks_sorted
      (delete_task (runCreates initRepo [(['a'], []), (['b'], []), (['c'], [])]).1 2).1
      (by decide) (by decide)).2.2⟩

end TodoApp
